import Mathlib

/-!
Shallow embedding of the PhyChat chat controller and session store
(`src/static/js/chat.js`, class `PhyChatApp`) together with a model of the
platform JSON collaborator (`JSON.stringify` / `JSON.parse`) used by its
persistence layer.

Modelling conventions:
* JavaScript strings are modelled as Lean `String` (sequences of `Char`);
  the JS-specific UTF-16 code-unit view is not observable by any property
  treated here.
* `Date.now()` and `new Date().toISOString()` are modelled by explicit time
  parameters threaded through the operations (`Nat` for the millisecond
  clock, `String` for formatted timestamps).  The code derives conversation
  ids from `Date.now().toString()`; this is `jsNumToString`.
* The DOM is not modelled; rendering calls are represented by the list of
  `Rendered` records a controller operation produces (content, css type,
  error flag), which is what `addMessage` receives.
* The asynchronous resolver call `await this.getAIResponse(...)` is a
  single suspension point with no interleaving (single-threaded event
  loop); `sendMessage` is therefore modelled as a function of the resolver
  outcome, which is passed explicitly (the spec requires the resolver to
  be injectable).  The pure keyword-lookup part of `getAIResponse` is
  modelled directly.
-/

namespace PhyChat

/-! ### Character and string utilities (models of JS string primitives) -/

/-- Whitespace recognized by the model: space, tab, newline, carriage
return.  This is the whitespace class of the JSON grammar and covers the
characters relevant to `String.prototype.trim` for this program. -/
def isWsChar (c : Char) : Bool :=
  c = ' ' || c = '\t' || c = '\n' || c = '\r'

/-- Decimal digit test for characters. -/
def isDigitChar (c : Char) : Bool :=
  '0' ≤ c && c ≤ '9'

/-- The character for a single decimal digit. -/
def digitChar (d : Nat) : Char := Char.ofNat (48 + d)

/-- Numeric value of a decimal digit character. -/
def charVal (c : Char) : Nat := c.toNat - 48

/-- Model of `String.prototype.toLowerCase` on a character (ASCII range;
all keywords in the response table are ASCII). -/
def toLowerChar (c : Char) : Char :=
  if 'A' ≤ c ∧ c ≤ 'Z' then Char.ofNat (c.toNat + 32) else c

/-- Model of `String.prototype.toLowerCase`. -/
def lowerStr (s : String) : String := String.mk (s.data.map toLowerChar)

/-- Does the first list start with the second one? -/
def startsWithChars : List Char → List Char → Bool
  | _, [] => true
  | [], _ :: _ => false
  | a :: as, b :: bs => a = b && startsWithChars as bs

/-- Does the first list contain the second as a contiguous sublist? -/
def containsSubChars : List Char → List Char → Bool
  | [], pat => pat.isEmpty
  | l@(_ :: rest), pat => startsWithChars l pat || containsSubChars rest pat

/-- Model of `String.prototype.includes`. -/
def includesStr (s pat : String) : Bool := containsSubChars s.data pat.data

/-- Trim whitespace from both ends of a character list. -/
def trimChars (s : List Char) : List Char :=
  ((s.dropWhile isWsChar).reverse.dropWhile isWsChar).reverse

/-- Model of `String.prototype.trim`. -/
def jsTrim (s : String) : String := String.mk (trimChars s.data)

/-- Model of `String.prototype.substring(0, n)`. -/
def jsSubstringTo (s : String) (n : Nat) : String := String.mk (s.data.take n)

/-- Little-endian digit expansion with explicit fuel (the fuel is an upper
bound on the number; recursion is on the fuel so the function reduces in
the kernel). -/
def natCharsAux : Nat → Nat → List Char
  | 0, _ => []
  | _ + 1, 0 => []
  | fuel + 1, n + 1 => digitChar ((n + 1) % 10) :: natCharsAux fuel ((n + 1) / 10)

/-- Decimal digit characters of a natural number, most significant first.
Model of `Number.prototype.toString` for naturals. -/
def natChars (n : Nat) : List Char :=
  if n = 0 then ['0'] else (natCharsAux (n + 1) n).reverse

/-- Model of `Date.now().toString()`: decimal rendering of the clock. -/
def jsNumToString (n : Nat) : String := String.mk (natChars n)

/-! ### The JSON value model

The program persists its state with `localStorage.setItem(key,
JSON.stringify(conversations))` and restores it with
`JSON.parse(localStorage.getItem(key))`.  `JSON.stringify` and `JSON.parse`
are platform builtins, not part of the repository source.

Modelled from the spec: the persistence format of §6 ("a single serialized
record under a well-known storage key") together with the JSON data
interchange grammar implemented by the platform collaborator.  Numbers are
modelled as integers (the store never produces fractional numbers) and
string escapes cover the characters the program can emit; both
restrictions are invisible to the properties treated here. -/

inductive Json : Type where
  | null : Json
  | bool (b : Bool) : Json
  | num (n : Int) : Json
  | str (s : String) : Json
  | arr (elems : List Json) : Json
  | obj (members : List (String × Json)) : Json

/-- Keys of a JSON object (empty for non-objects). -/
def Json.objKeys : Json → List String
  | .obj kvs => kvs.map Prod.fst
  | _ => []

/-- Digit characters of an integer, a minus sign first when negative:
the rendering used by `JSON.stringify` for the integers we model. -/
def stringifyInt (n : Int) : List Char :=
  if n < 0 then '-' :: natChars n.natAbs else natChars n.natAbs

/-- Escape a character for a JSON string literal the way `JSON.stringify`
does for the characters the program can produce. -/
def quoteChar (c : Char) : List Char :=
  if c = '"' then ['\\', '"']
  else if c = '\\' then ['\\', '\\']
  else if c = '\n' then ['\\', 'n']
  else if c = '\t' then ['\\', 't']
  else if c = '\r' then ['\\', 'r']
  else [c]

/-- Opening brace character. -/
def lbrace : Char := Char.ofNat 123

/-- Closing brace character. -/
def rbrace : Char := Char.ofNat 125

mutual

/-- Model of `JSON.stringify` (character-list level). -/
def stringifyJson : Json → List Char
  | .null => 'n' :: 'u' :: 'l' :: 'l' :: []
  | .bool true => 't' :: 'r' :: 'u' :: 'e' :: []
  | .bool false => 'f' :: 'a' :: 'l' :: 's' :: 'e' :: []
  | .num n => stringifyInt n
  | .str s => '"' :: (s.data.flatMap quoteChar ++ ['"'])
  | .arr xs => '[' :: (stringifyElems xs ++ [']'])
  | .obj kvs => lbrace :: (stringifyMembers kvs ++ [rbrace])

/-- Comma-separated renderings of array elements. -/
def stringifyElems : List Json → List Char
  | [] => []
  | [x] => stringifyJson x
  | x :: y :: rest => stringifyJson x ++ ',' :: stringifyElems (y :: rest)

/-- Comma-separated renderings of object members. -/
def stringifyMembers : List (String × Json) → List Char
  | [] => []
  | [(k, v)] => '"' :: (k.data.flatMap quoteChar ++ '"' :: ':' :: stringifyJson v)
  | (k, v) :: kv :: rest =>
      ('"' :: (k.data.flatMap quoteChar ++ '"' :: ':' :: stringifyJson v))
        ++ ',' :: stringifyMembers (kv :: rest)

end

/-- String-valued model of `JSON.stringify`. -/
def jsonStringify (j : Json) : String := String.mk (stringifyJson j)

/-- Skip leading whitespace. -/
def skipWs : List Char → List Char
  | [] => []
  | c :: rest => if isWsChar c then skipWs rest else c :: rest

/-- Unescape a single character following a backslash in a JSON string
literal. -/
def unescapeChar (c : Char) : Option Char :=
  if c = '"' then some '"'
  else if c = '\\' then some '\\'
  else if c = '/' then some '/'
  else if c = 'n' then some '\n'
  else if c = 't' then some '\t'
  else if c = 'r' then some '\r'
  else none

/-- Parse the body of a JSON string literal after the opening quote,
returning the decoded characters and the input after the closing quote. -/
def parseStringRest : List Char → Option (List Char × List Char)
  | [] => none
  | c :: rest =>
    if c = '"' then some ([], rest)
    else if c = '\\' then
      match rest with
      | [] => none
      | e :: rest2 =>
        match unescapeChar e, parseStringRest rest2 with
        | some u, some (cs, r) => some (u :: cs, r)
        | _, _ => none
    else
      match parseStringRest rest with
      | some (cs, r) => some (c :: cs, r)
      | none => none

/-- Accumulate a run of decimal digits (greedy). -/
def parseDigitsAux : List Char → Nat → Nat × List Char
  | [], acc => (acc, [])
  | c :: rest, acc =>
    if isDigitChar c then parseDigitsAux rest (acc * 10 + charVal c)
    else (acc, c :: rest)

mutual

/-- Parse one JSON value.  The fuel argument makes the recursion
structural; `jsonParse` supplies fuel exceeding the input length, which is
always sufficient. -/
def parseValue : Nat → List Char → Option (Json × List Char)
  | 0, _ => none
  | f + 1, input =>
    match skipWs input with
    | [] => none
    | c :: rest =>
      if c = '"' then
        match parseStringRest rest with
        | some (cs, r) => some (.str (String.mk cs), r)
        | none => none
      else if c = '[' then
        match skipWs rest with
        | [] => none
        | d :: r2 =>
          if d = ']' then some (.arr [], r2)
          else
            match parseElems f (d :: r2) with
            | some (vs, r) => some (.arr vs, r)
            | none => none
      else if c = lbrace then
        match skipWs rest with
        | d :: r2 =>
          if d = rbrace then some (.obj [], r2)
          else
            match parseMembers f (d :: r2) with
            | some (kvs, r) => some (.obj kvs, r)
            | none => none
        | [] => none
      else if c = 't' then
        match rest with
        | 'r' :: 'u' :: 'e' :: r => some (.bool true, r)
        | _ => none
      else if c = 'f' then
        match rest with
        | 'a' :: 'l' :: 's' :: 'e' :: r => some (.bool false, r)
        | _ => none
      else if c = 'n' then
        match rest with
        | 'u' :: 'l' :: 'l' :: r => some (.null, r)
        | _ => none
      else if c = '-' then
        match rest with
        | d :: _ =>
          if isDigitChar d then
            match parseDigitsAux rest 0 with
            | (m, r) => some (.num (-(m : Int)), r)
          else none
        | [] => none
      else if isDigitChar c then
        match parseDigitsAux (c :: rest) 0 with
        | (m, r) => some (.num (m : Int), r)
      else none

/-- Parse one or more comma-separated array elements and the closing
bracket. -/
def parseElems : Nat → List Char → Option (List Json × List Char)
  | 0, _ => none
  | f + 1, input =>
    match parseValue f input with
    | none => none
    | some (v, r) =>
      match skipWs r with
      | [] => none
      | d :: r2 =>
        if d = ',' then
          match parseElems f r2 with
          | some (vs, r3) => some (v :: vs, r3)
          | none => none
        else if d = ']' then some ([v], r2)
        else none

/-- Parse one or more comma-separated object members and the closing
brace. -/
def parseMembers : Nat → List Char → Option (List (String × Json) × List Char)
  | 0, _ => none
  | f + 1, input =>
    match skipWs input with
    | '"' :: rest =>
      match parseStringRest rest with
      | none => none
      | some (ks, r) =>
        match skipWs r with
        | ':' :: r2 =>
          match parseValue f r2 with
          | none => none
          | some (v, r3) =>
            match skipWs r3 with
            | [] => none
            | d :: r4 =>
              if d = ',' then
                match parseMembers f r4 with
                | some (kvs, r5) => some ((String.mk ks, v) :: kvs, r5)
                | none => none
              else if d = rbrace then some ([(String.mk ks, v)], r4)
              else none
        | _ => none
    | _ => none

end

/-- Model of `JSON.parse`: parse a full value with only trailing
whitespace allowed; `none` models a thrown `SyntaxError`. -/
def jsonParse (s : String) : Option Json :=
  match parseValue (s.length + 1) s.data with
  | some (j, rest) => if skipWs rest = [] then some j else none
  | none => none

/-- Input that does not start with a decimal digit (so a preceding greedy
digit run cannot extend into it). -/
def noDigitHead : List Char → Bool
  | [] => true
  | c :: _ => !isDigitChar c

mutual

/-- Constructor count of a JSON value; an upper bound on the parser fuel
its rendering consumes. -/
def nodesV : Json → Nat
  | .null => 1
  | .bool _ => 1
  | .num _ => 1
  | .str _ => 1
  | .arr xs => 2 + nodesL xs
  | .obj kvs => 2 + nodesM kvs

/-- Constructor count of a list of array elements. -/
def nodesL : List Json → Nat
  | [] => 0
  | v :: rest => nodesV v + nodesL rest

/-- Constructor count of a list of object members. -/
def nodesM : List (String × Json) → Nat
  | [] => 0
  | kv :: rest => nodesV kv.2 + nodesM rest

end

/-! ### Data model

The conversation and message records built by `createNewConversation` and
`saveMessageToConversation`.  Field names and their order match the object
literals in the source; in particular the message field written by the
code is named `type` (the value pushed is
`\x7b content, type, timestamp \x7d`). -/

structure Message where
  content : String
  type : String
  timestamp : String
  deriving Repr, DecidableEq

structure Conversation where
  id : String
  title : String
  messages : List Message
  createdAt : String
  deriving Repr, DecidableEq

/-- Fields of `PhyChatApp` that carry chat state: the conversation list,
the active conversation id (`null` initially), and the processing flag. -/
structure AppState where
  conversations : List Conversation
  currentConversationId : Option String
  isProcessing : Bool
  deriving Repr, DecidableEq

/-- State installed by the `PhyChatApp` constructor before `init` runs. -/
def initialState : AppState :=
  { conversations := [], currentConversationId := none, isProcessing := false }

/-- JSON value of a message record as laid out by
`saveMessageToConversation` (insertion order: content, type, timestamp). -/
def encodeMessage (m : Message) : Json :=
  .obj [("content", .str m.content), ("type", .str m.type),
        ("timestamp", .str m.timestamp)]

/-- JSON value of a conversation record as laid out by
`createNewConversation` (insertion order: id, title, messages,
createdAt). -/
def encodeConversation (c : Conversation) : Json :=
  .obj [("id", .str c.id), ("title", .str c.title),
        ("messages", .arr (c.messages.map encodeMessage)),
        ("createdAt", .str c.createdAt)]

/-- JSON value of the full conversation list. -/
def encodeConversations (convs : List Conversation) : Json :=
  .arr (convs.map encodeConversation)

/-! ### SessionStore operations -/

/-- Model of `loadConversations`: the argument is
`localStorage.getItem(\x27phychat-conversations\x27)` (`none` when the key
is absent).  The source line is
`this.conversations = saved ? JSON.parse(saved) : []`: an absent or empty
(falsy) value yields the empty list, otherwise `JSON.parse` runs and a
parse failure is a thrown `SyntaxError`, modelled by `Except.error`. -/
def loadConversations (saved : Option String) : Except String Json :=
  match saved with
  | none => .ok (.arr [])
  | some s =>
      if s = "" then .ok (.arr [])
      else
        match jsonParse s with
        | some j => .ok j
        | none => .error "SyntaxError: Unexpected token in JSON"

/-- Model of `saveConversations`: the string written to
`localStorage.setItem(\x27phychat-conversations\x27, JSON.stringify(...))`
for a stored JSON value. -/
def saveConversationsRaw (j : Json) : String := jsonStringify j

/-- String written by `saveConversations` for a typed conversation list. -/
def saveConversationsStr (convs : List Conversation) : String :=
  saveConversationsRaw (encodeConversations convs)

/-- Model of `this.conversations.find(c => c.id === id)`, the lookup used
throughout the class. -/
def findById (convs : List Conversation) (conversationId : String) :
    Option Conversation :=
  convs.find? (fun c => c.id = conversationId)

/-- The conversation object literal built by `createNewConversation` at
clock value `t`: id is `Date.now().toString()`, title is the placeholder,
messages empty, createdAt the ISO rendering of the same instant (its
contents are opaque to every property here, so the decimal rendering
stands in for the ISO string). -/
def newConv (t : Nat) : Conversation :=
  { id := jsNumToString t, title := "New Conversation", messages := [],
    createdAt := jsNumToString t }

/-- Model of `loadConversation`: sets `currentConversationId` to the given
id unconditionally (the assignment precedes the existence check in the
source) and re-renders the transcript, a DOM effect with no further state
change. -/
def loadConversation (st : AppState) (conversationId : String) : AppState :=
  { st with currentConversationId := some conversationId }

/-- Model of `createNewConversation`: prepends (`unshift`) a fresh
conversation, persists, and activates it via `loadConversation`. -/
def createNewConversation (st : AppState) (t : Nat) : AppState :=
  let conversation := newConv t
  loadConversation { st with conversations := conversation :: st.conversations }
    conversation.id

/-- Per-conversation effect of `saveMessageToConversation` once the
conversation is found: push the message, then set the title from the
content when this made the count of user-typed messages exactly one. -/
def pushMessage (c : Conversation) (content ty time : String) : Conversation :=
  let msgs := c.messages ++ [{ content := content, type := ty, timestamp := time }]
  let title :=
    if ty = "user" ∧ (msgs.filter (fun m => m.type = "user")).length = 1 then
      jsSubstringTo content 30 ++ (if 30 < content.length then "..." else "")
    else c.title
  { c with messages := msgs, title := title }

/-- Model of `saveMessageToConversation`: look up the first conversation
whose id equals `currentConversationId` and mutate that object; absent id
is a no-op.  Returns the updated list (which `saveConversations` then
persists in full). -/
def saveMessageToConversation (convs : List Conversation)
    (currentId : Option String) (content ty time : String) :
    List Conversation :=
  match convs with
  | [] => []
  | c :: rest =>
    if some c.id = currentId then pushMessage c content ty time :: rest
    else c :: saveMessageToConversation rest currentId content ty time

/-- One rendered chat bubble: the arguments `addMessage(content, type,
isError)` receives. -/
structure Rendered where
  content : String
  type : String
  isError : Bool
  deriving Repr, DecidableEq

/-- The fixed error bubble rendered in the catch branch of
`sendMessage`. -/
def errorMessageText : String := "Sorry, I encountered an error. Please try again."

/-- Model of `sendMessage`.  `t1` and `t2` are the timestamps of the two
persistence calls and `outcome` is the result of awaiting
`getAIResponse` (`Except.error` models a rejected promise; the spec
requires the resolver to be injectable).  Returns the final state and the
bubbles passed to `addMessage`, in order. -/
def sendMessage (st : AppState) (rawInput : String) (t1 t2 : String)
    (outcome : Except Unit String) : AppState × List Rendered :=
  let message := jsTrim rawInput
  if message = "" ∨ st.isProcessing then (st, [])
  else
    let convs1 := saveMessageToConversation st.conversations
      st.currentConversationId message "user" t1
    match outcome with
    | .ok response =>
        let convs2 := saveMessageToConversation convs1
          st.currentConversationId response "assistant" t2
        ({ st with conversations := convs2, isProcessing := false },
         [{ content := message, type := "user", isError := false },
          { content := response, type := "assistant", isError := false }])
    | .error _ =>
        ({ st with conversations := convs1, isProcessing := false },
         [{ content := message, type := "user", isError := false },
          { content := errorMessageText, type := "assistant", isError := true }])

/-- Model of `deleteConversation`: drop every conversation with the given
id, persist, and when the active conversation was deleted activate the
front of the remainder or create a fresh conversation (at clock `t`) when
none remain. -/
def deleteConversation (st : AppState) (conversationId : String) (t : Nat) :
    AppState :=
  let remaining := st.conversations.filter (fun c => c.id ≠ conversationId)
  let st1 := { st with conversations := remaining }
  if st.currentConversationId = some conversationId then
    match remaining with
    | [] => createNewConversation st1 t
    | c :: _ => loadConversation st1 c.id
  else st1

/-! ### The response resolver -/

/-- Canned response for the keyword `newton`. -/
def responseNewton : String := "**Newton\u0027s Laws of Motion**\n\n1. **First Law (Inertia):** An object at rest stays at rest, and an object in motion stays in motion with the same speed and direction, unless acted upon by an unbalanced force.\n\n2. **Second Law:** The acceleration of an object is directly proportional to the net force acting on it and inversely proportional to its mass.\n   `F = ma`\n\n3. **Third Law:** For every action, there is an equal and opposite reaction.\n\nWould you like me to explain any of these laws in more detail or provide some practice problems?"

/-- Canned response for the keyword `quantum`. -/
def responseQuantum : String := "**Quantum Mechanics** is a fundamental theory in physics that describes nature at the smallest scales of energy levels of atoms and subatomic particles.\n\nKey concepts include:\n- **Wave-Particle Duality:** Particles can exhibit wave-like behavior\n- **Heisenberg Uncertainty Principle:** `Δx · Δp ≥ ℏ/2`\n- **Schrödinger\u0027s Equation:** Describes how quantum states evolve over time\n- **Superposition:** Particles can exist in multiple states simultaneously\n\nWould you like me to elaborate on any of these concepts?"

/-- Canned response for the keyword `thermodynamics`. -/
def responseThermodynamics : String := "**Thermodynamics** is the branch of physics that deals with heat, work, and temperature.\n\n**The Four Laws:**\n\n0. **Zeroth Law:** If two systems are in thermal equilibrium with a third, they are in equilibrium with each other.\n\n1. **First Law:** Energy cannot be created or destroyed, only transformed.\n   `ΔU = Q - W`\n\n2. **Second Law:** Entropy of an isolated system always increases.\n\n3. **Third Law:** As temperature approaches absolute zero, entropy approaches a constant minimum.\n\nNeed help with any specific thermodynamics problem?"

/-- Canned response for the keyword `electromagnetism`. -/
def responseElectromagnetism : String := "**Electromagnetism** describes the interaction between electrically charged particles.\n\n**Maxwell\u0027s Equations** form the foundation:\n- **Gauss\u0027s Law:** `∇·E = ρ/ε₀`\n- **Gauss\u0027s Law for Magnetism:** `∇·B = 0`\n- **Faraday\u0027s Law:** `∇×E = -∂B/∂t`\n- **Ampère\u0027s Law:** `∇×B = μ₀J + μ₀ε₀∂E/∂t`\n\nThese equations describe how electric and magnetic fields are generated and interact!"

/-- Canned response for the keyword `relativity`. -/
def responseRelativity : String := "**Einstein\u0027s Theory of Relativity**\n\n**Special Relativity (1905):**\n- Speed of light is constant in all reference frames\n- Time dilation: `t\u0027 = t/√(1-v²/c²)`\n- Length contraction: `L\u0027 = L√(1-v²/c²)`\n- Mass-energy equivalence: `E = mc²`\n\n**General Relativity (1915):**\n- Gravity is the curvature of spacetime caused by mass\n- Predicts black holes, gravitational waves, and time dilation near massive objects\n\nWhat aspect would you like to explore further?"

/-- Default fallback response (the `default` entry of the table). -/
def responseDefault : String := "That\u0027s a great physics question! Let me help you understand this concept.\n\nPhysics is all about understanding the fundamental laws that govern our universe. Whether it\u0027s the motion of planets, the behavior of atoms, or the nature of light, physics provides the framework.\n\nCould you provide more details about what specific aspect you\u0027d like to explore? I can help with:\n- **Classical Mechanics** (motion, forces, energy)\n- **Thermodynamics** (heat, entropy, temperature)\n- **Electromagnetism** (electricity, magnetism, light)\n- **Quantum Mechanics** (atomic and subatomic behavior)\n- **Relativity** (space, time, gravity)\n\nFeel free to ask any physics question!"

/-- The `responses` object of `getAIResponse` in the order
`Object.entries` yields its keys (insertion order; note that the
`default` key participates in the keyword scan). -/
def responsesTable : List (String × String) :=
  [("newton", responseNewton),
   ("quantum", responseQuantum),
   ("thermodynamics", responseThermodynamics),
   ("electromagnetism", responseElectromagnetism),
   ("relativity", responseRelativity),
   ("default", responseDefault)]

/-- Pure part of `getAIResponse` (the simulated latency
`await this.delay(...)` has no semantic effect): lowercase the message,
return the response of the first table entry whose keyword occurs as a
substring, else `responses.default`. -/
def getAIResponse (message : String) : String :=
  let lowerMessage := lowerStr message
  match responsesTable.find? (fun kv => includesStr lowerMessage kv.1) with
  | some kv => kv.2
  | none => responseDefault

/-- Modelled from the spec: the §4.2 resolver contract, stated with its
own five-keyword table ("a fixed ordered table of keyword/canned-response
pairs") and an explicit default fallback, for comparison with the
source-derived `getAIResponse`. -/
def specResolver (input : String) : String :=
  let lowered := lowerStr input
  match [("newton", responseNewton),
         ("quantum", responseQuantum),
         ("thermodynamics", responseThermodynamics),
         ("electromagnetism", responseElectromagnetism),
         ("relativity", responseRelativity)].find?
      (fun kv => includesStr lowered kv.1) with
  | some kv => kv.2
  | none => responseDefault

/-! ### Lemmas about the session store -/

/-- The per-conversation update keeps the conversation id. -/
theorem pushMessage_id (c : Conversation) (content ty time : String) :
    (pushMessage c content ty time).id = c.id := rfl

/-- The per-conversation update appends exactly one message. -/
theorem pushMessage_messages (c : Conversation) (content ty time : String) :
    (pushMessage c content ty time).messages
      = c.messages ++ [{ content := content, type := ty, timestamp := time }] := rfl

/-- Appending with a current id that matches no conversation leaves the
list unchanged. -/
theorem saveMessage_absent (convs : List Conversation) (cur : Option String)
    (content ty time : String) (h : ∀ c ∈ convs, some c.id ≠ cur) :
    saveMessageToConversation convs cur content ty time = convs := by
  induction convs with
  | nil => rfl
  | cons c rest ih =>
    have h1 : ¬ (some c.id = cur) := h c (by simp)
    simp only [saveMessageToConversation, if_neg h1]
    rw [ih fun d hd => h d (List.mem_cons_of_mem _ hd)]

/-- Effect of an append on the lookup of the current id: the first match
is updated in place. -/
theorem findById_save (convs : List Conversation) (conversationId : String)
    (content ty time : String) :
    findById (saveMessageToConversation convs (some conversationId) content ty time)
        conversationId
      = (findById convs conversationId).map (fun c => pushMessage c content ty time) := by
  induction convs with
  | nil => rfl
  | cons c rest ih =>
    by_cases hc : c.id = conversationId
    · have hcond : some c.id = some conversationId := by rw [hc]
      simp only [saveMessageToConversation, if_pos hcond, findById]
      rw [List.find?_cons_of_pos _ (by simp [pushMessage_id, hc]),
        List.find?_cons_of_pos _ (by simp [hc])]
      rfl
    · have hcond : ¬ (some c.id = some conversationId) := by simp [hc]
      simp only [saveMessageToConversation, if_neg hcond, findById]
      rw [List.find?_cons_of_neg _ (by simp [hc]), List.find?_cons_of_neg _ (by simp [hc])]
      exact ih

/-- Setting the title from the first user message: when the conversation
has no user-typed message yet, pushing a user message sets the truncated
title. -/
theorem pushMessage_title_first (c : Conversation) (content time : String)
    (h : ∀ m ∈ c.messages, ¬ m.type = "user") :
    (pushMessage c content "user" time).title
      = jsSubstringTo content 30 ++ (if 30 < content.length then "..." else "") := by
  have hfilter : c.messages.filter (fun m => m.type = "user") = [] := by
    simp only [List.filter_eq_nil_iff]
    intro m hm
    simpa using h m hm
  simp [pushMessage, hfilter, List.filter_append]

/-- Title stability: once the conversation contains a user-typed message,
no later append changes the title. -/
theorem pushMessage_title_stable (c : Conversation) (content ty time : String)
    (h : ∃ m ∈ c.messages, m.type = "user") :
    (pushMessage c content ty time).title = c.title := by
  obtain ⟨m, hm, hmty⟩ := h
  have hlen : 1 ≤ (c.messages.filter (fun m => m.type = "user")).length := by
    have : m ∈ c.messages.filter (fun m => m.type = "user") := by
      simp [List.mem_filter, hm, hmty]
    exact List.length_pos.mpr (List.ne_nil_of_mem this)
  by_cases hty : ty = "user"
  · have key : (((c.messages
          ++ [({ content := content, type := ty, timestamp := time } : Message)]).filter
        (fun m => m.type = "user")).length)
        = (c.messages.filter (fun m => m.type = "user")).length + 1 := by
      simp [List.filter_append, hty]
    simp only [pushMessage]
    rw [if_neg]
    intro hand
    have h2 := hand.2
    rw [key] at h2
    omega
  · simp only [pushMessage]
    rw [if_neg]
    intro hand
    exact hty hand.1

/-- Every message present after an append was present before or is the
appended record. -/
theorem mem_messages_save (convs : List Conversation) (cur : Option String)
    (content ty time : String) (c : Conversation) (m : Message)
    (hc : c ∈ saveMessageToConversation convs cur content ty time)
    (hm : m ∈ c.messages) :
    (∃ c0 ∈ convs, m ∈ c0.messages)
      ∨ m = { content := content, type := ty, timestamp := time } := by
  induction convs with
  | nil => simp [saveMessageToConversation] at hc
  | cons a rest ih =>
    by_cases ha : some a.id = cur
    · simp only [saveMessageToConversation, if_pos ha] at hc
      rcases List.mem_cons.mp hc with h1 | h1
      · subst h1
        rw [pushMessage_messages] at hm
        rcases List.mem_append.mp hm with h2 | h2
        · exact Or.inl ⟨a, by simp, h2⟩
        · simp at h2
          exact Or.inr h2
      · exact Or.inl ⟨c, by simp [h1], hm⟩
    · simp only [saveMessageToConversation, if_neg ha] at hc
      rcases List.mem_cons.mp hc with h1 | h1
      · subst h1
        exact Or.inl ⟨c, by simp, hm⟩
      · rcases ih h1 with h2 | h2
        · obtain ⟨c0, hc0, hmc0⟩ := h2
          exact Or.inl ⟨c0, by simp [hc0], hmc0⟩
        · exact Or.inr h2

/-! ### Claim C7 -/

/-- Claim C7 (confirmed): appending while the active id matches no stored
conversation is a no-op on the store: the conversation list (hence its
size and every transcript) is returned unchanged. -/
theorem claim_C7 (convs : List Conversation)
    (conversationId content ty time : String)
    (h : conversationId ∉ convs.map Conversation.id) :
    saveMessageToConversation convs (some conversationId) content ty time = convs := by
  refine saveMessage_absent convs (some conversationId) content ty time fun c hc => ?_
  intro he
  exact h (by simp only [List.mem_map]; exact ⟨c, hc, by simpa using he⟩)

/-- Claim C7 witness: a concrete store with one conversation and an absent
active id. -/
theorem claim_C7_witness :
    "1" ∉ [newConv 0].map Conversation.id
    ∧ saveMessageToConversation [newConv 0] (some "1") "hi" "user" "T" = [newConv 0] :=
  ⟨by decide, claim_C7 [newConv 0] "1" "hi" "user" "T" (by decide)⟩

/-! ### Claim C5 -/

/-- Claim C5 (confirmed): appending a user message to a conversation with
no prior user message sets the title to the first 30 characters of the
text with an ellipsis exactly when the text is longer than 30; and once a
user message exists, no later append (of either role) changes the title. -/
theorem claim_C5 :
    (∀ (convs : List Conversation) (conversationId text time : String)
        (c : Conversation),
      findById convs conversationId = some c →
      (∀ m ∈ c.messages, ¬ m.type = "user") →
      ∃ c2,
        findById (saveMessageToConversation convs (some conversationId) text "user" time)
            conversationId = some c2
        ∧ c2.title = jsSubstringTo text 30 ++ (if 30 < text.length then "..." else "")
        ∧ c2.messages = c.messages
            ++ [{ content := text, type := "user", timestamp := time }])
    ∧ (∀ (convs : List Conversation) (conversationId content ty time : String)
        (c : Conversation),
      findById convs conversationId = some c →
      (∃ m ∈ c.messages, m.type = "user") →
      ∃ c2,
        findById (saveMessageToConversation convs (some conversationId) content ty time)
            conversationId = some c2
        ∧ c2.title = c.title) := by
  constructor
  · intro convs conversationId text time c hfind hnouser
    refine ⟨pushMessage c text "user" time, ?_, ?_, pushMessage_messages ..⟩
    · rw [findById_save, hfind]
      rfl
    · exact pushMessage_title_first c text time hnouser
  · intro convs conversationId content ty time c hfind huser
    refine ⟨pushMessage c content ty time, ?_, ?_⟩
    · rw [findById_save, hfind]
      rfl
    · exact pushMessage_title_stable c content ty time huser

/-- Claim C5 witness: a fresh conversation titled from a short first user
message, and title stability across the following assistant append. -/
theorem claim_C5_witness :
    (findById [newConv 7] "7" = some (newConv 7)
      ∧ (∀ m ∈ (newConv 7).messages, ¬ m.type = "user")
      ∧ ∃ c2, findById (saveMessageToConversation [newConv 7] (some "7") "hi" "user" "T1") "7"
            = some c2
          ∧ c2.title = jsSubstringTo "hi" 30 ++ (if 30 < "hi".length then "..." else "")
          ∧ c2.messages = (newConv 7).messages
              ++ [{ content := "hi", type := "user", timestamp := "T1" }])
    ∧ (findById [pushMessage (newConv 7) "hi" "user" "T1"] "7"
          = some (pushMessage (newConv 7) "hi" "user" "T1")
      ∧ (∃ m ∈ (pushMessage (newConv 7) "hi" "user" "T1").messages, m.type = "user")
      ∧ ∃ c2, findById (saveMessageToConversation [pushMessage (newConv 7) "hi" "user" "T1"]
            (some "7") "yo" "assistant" "T2") "7" = some c2
          ∧ c2.title = (pushMessage (newConv 7) "hi" "user" "T1").title) :=
  ⟨⟨by decide, by decide,
      claim_C5.1 [newConv 7] "7" "hi" "T1" (newConv 7) (by decide) (by decide)⟩,
   ⟨by decide, by decide,
      claim_C5.2 [pushMessage (newConv 7) "hi" "user" "T1"] "7" "yo" "assistant" "T2"
        (pushMessage (newConv 7) "hi" "user" "T1") (by decide) (by decide)⟩⟩

/-! ### Claim C10 -/

/-- Claim C10 (confirmed): switching to an id that is not in the store
still sets the active-conversation reference to that id (the assignment
precedes the existence check), and every subsequent submission leaves the
store unchanged: the message is silently dropped, not persisted, and no
error is raised (the model is total). -/
theorem claim_C10 (st : AppState) (conversationId : String)
    (h : conversationId ∉ st.conversations.map Conversation.id) :
    (loadConversation st conversationId).currentConversationId = some conversationId
    ∧ ∀ rawInput t1 t2 outcome,
        (sendMessage (loadConversation st conversationId) rawInput t1 t2 outcome).1.conversations
          = st.conversations := by
  have habs : ∀ c ∈ st.conversations, some c.id ≠ some conversationId := by
    intro c hc he
    exact h (List.mem_map.mpr ⟨c, hc, by simpa using he⟩)
  refine ⟨rfl, ?_⟩
  intro rawInput t1 t2 outcome
  have hnoop : ∀ content ty time,
      saveMessageToConversation st.conversations (some conversationId) content ty time
        = st.conversations :=
    fun content ty time => saveMessage_absent st.conversations (some conversationId)
      content ty time habs
  by_cases hguard : jsTrim rawInput = "" ∨ st.isProcessing
  · simp only [sendMessage, loadConversation, if_pos hguard]
  · cases outcome with
    | ok r =>
        simp only [sendMessage, loadConversation, if_neg hguard, hnoop]
    | error e =>
        simp only [sendMessage, loadConversation, if_neg hguard, hnoop]

/-- Claim C10 witness: an empty store, a switch to the absent id `x`, and
one concrete submission on each resolver outcome. -/
theorem claim_C10_witness :
    "x" ∉ (initialState.conversations.map Conversation.id)
    ∧ (loadConversation initialState "x").currentConversationId = some "x"
    ∧ (sendMessage (loadConversation initialState "x") "hi" "T1" "T2"
        (.ok "resp")).1.conversations = initialState.conversations
    ∧ (sendMessage (loadConversation initialState "x") "hi" "T1" "T2"
        (.error ())).1.conversations = initialState.conversations :=
  ⟨by decide, (claim_C10 initialState "x" (by decide)).1,
   (claim_C10 initialState "x" (by decide)).2 "hi" "T1" "T2" (.ok "resp"),
   (claim_C10 initialState "x" (by decide)).2 "hi" "T1" "T2" (.error ())⟩

/-! ### Claim C6 -/

/-- Claim C6 (confirmed): when the resolver fails, the controller renders
the fixed error bubble with the error flag set but persists only the user
message: the stored transcript gains exactly the user record, and the
processing flag is cleared. -/
theorem claim_C6 (st : AppState) (rawInput t1 t2 : String) (cid : String)
    (c : Conversation)
    (hp : st.isProcessing = false) (hne : ¬ jsTrim rawInput = "")
    (hcur : st.currentConversationId = some cid)
    (hfind : findById st.conversations cid = some c) :
    (sendMessage st rawInput t1 t2 (.error ())).1.isProcessing = false
    ∧ (sendMessage st rawInput t1 t2 (.error ())).2
        = [{ content := jsTrim rawInput, type := "user", isError := false },
           { content := errorMessageText, type := "assistant", isError := true }]
    ∧ ∃ c2,
        findById (sendMessage st rawInput t1 t2 (.error ())).1.conversations cid = some c2
        ∧ c2.messages = c.messages
            ++ [{ content := jsTrim rawInput, type := "user", timestamp := t1 }] := by
  have hguard : ¬ (jsTrim rawInput = "" ∨ st.isProcessing) := by
    simp [hne, hp]
  refine ⟨?_, ?_, ?_⟩
  · simp only [sendMessage, if_neg hguard]
  · simp only [sendMessage, if_neg hguard]
  · refine ⟨pushMessage c (jsTrim rawInput) "user" t1, ?_, pushMessage_messages ..⟩
    simp only [sendMessage, if_neg hguard, hcur]
    rw [findById_save, hfind]
    rfl

/-- Claim C6 witness: a one-conversation store, a failing resolver, and a
concrete submission. -/
theorem claim_C6_witness :
    ({ conversations := [newConv 3], currentConversationId := some "3",
       isProcessing := false } : AppState).isProcessing = false
    ∧ ¬ jsTrim " hi " = ""
    ∧ findById [newConv 3] "3" = some (newConv 3)
    ∧ (sendMessage { conversations := [newConv 3], currentConversationId := some "3",
                     isProcessing := false } " hi " "T1" "T2" (.error ())).1.isProcessing = false
    ∧ (sendMessage { conversations := [newConv 3], currentConversationId := some "3",
                     isProcessing := false } " hi " "T1" "T2" (.error ())).2
        = [{ content := jsTrim " hi ", type := "user", isError := false },
           { content := errorMessageText, type := "assistant", isError := true }]
    ∧ ∃ c2,
        findById (sendMessage { conversations := [newConv 3], currentConversationId := some "3",
                                isProcessing := false } " hi " "T1" "T2"
            (.error ())).1.conversations "3" = some c2
        ∧ c2.messages = (newConv 3).messages
            ++ [{ content := jsTrim " hi ", type := "user", timestamp := "T1" }] :=
  ⟨rfl, by decide, by decide,
   (claim_C6 _ " hi " "T1" "T2" "3" (newConv 3) rfl (by decide) rfl (by decide)).1,
   (claim_C6 _ " hi " "T1" "T2" "3" (newConv 3) rfl (by decide) rfl (by decide)).2.1,
   (claim_C6 _ " hi " "T1" "T2" "3" (newConv 3) rfl (by decide) rfl (by decide)).2.2⟩

/-! ### Claim C3 -/

/-- Claim C3 counterexample: the message record persisted by
`saveMessageToConversation` carries the keys `content`, `type`,
`timestamp`; there is no `role` field, so the record does not have
exactly the fields content, role, timestamp. -/
theorem claim_C3_cex :
    Json.objKeys (encodeMessage { content := "hi", type := "user", timestamp := "T" })
      = ["content", "type", "timestamp"]
    ∧ "role" ∉ Json.objKeys (encodeMessage { content := "hi", type := "user", timestamp := "T" })
    ∧ Json.objKeys (encodeMessage { content := "hi", type := "user", timestamp := "T" })
      ≠ ["content", "role", "timestamp"] :=
  ⟨rfl, by decide, by decide⟩

/-- Claim C3 (corrected): every persisted message record has exactly the
fields `content`, `type` and `timestamp` (the role is stored under the
key `type`, not `role`), and the controller only ever appends records
whose `type` is `user` or `assistant`. -/
theorem claim_C3 :
    (∀ m : Message, Json.objKeys (encodeMessage m) = ["content", "type", "timestamp"])
    ∧ (∀ (st : AppState) (rawInput t1 t2 : String) (outcome : Except Unit String)
        (c : Conversation) (m : Message),
        c ∈ (sendMessage st rawInput t1 t2 outcome).1.conversations →
        m ∈ c.messages →
        (∃ c0 ∈ st.conversations, m ∈ c0.messages)
          ∨ m.type = "user" ∨ m.type = "assistant") := by
  constructor
  · intro m
    rfl
  · intro st rawInput t1 t2 outcome c m hc hm
    by_cases hguard : jsTrim rawInput = "" ∨ st.isProcessing
    · simp only [sendMessage, if_pos hguard] at hc
      exact Or.inl ⟨c, hc, hm⟩
    · cases outcome with
      | ok r =>
          simp only [sendMessage, if_neg hguard] at hc
          rcases mem_messages_save _ _ _ _ _ c m hc hm with h1 | h1
          · obtain ⟨c1, hc1, hm1⟩ := h1
            rcases mem_messages_save _ _ _ _ _ c1 m hc1 hm1 with h2 | h2
            · exact Or.inl h2
            · exact Or.inr (Or.inl (by rw [h2]))
          · exact Or.inr (Or.inr (by rw [h1]))
      | error e =>
          simp only [sendMessage, if_neg hguard] at hc
          rcases mem_messages_save _ _ _ _ _ c m hc hm with h1 | h1
          · exact Or.inl h1
          · exact Or.inr (Or.inl (by rw [h1]))

/-- Claim C3 witness: a concrete successful submission, with the
assistant record of the resulting conversation classified by the
theorem. -/
theorem claim_C3_witness :
    (pushMessage (pushMessage (newConv 5) "hi" "user" "T1") "resp" "assistant" "T2")
      ∈ (sendMessage { conversations := [newConv 5], currentConversationId := some "5",
                       isProcessing := false } "hi" "T1" "T2" (.ok "resp")).1.conversations
    ∧ ({ content := "resp", type := "assistant", timestamp := "T2" } : Message)
      ∈ (pushMessage (pushMessage (newConv 5) "hi" "user" "T1") "resp" "assistant" "T2").messages
    ∧ ((∃ c0 ∈ ({ conversations := [newConv 5], currentConversationId := some "5",
                  isProcessing := false } : AppState).conversations,
          ({ content := "resp", type := "assistant", timestamp := "T2" } : Message)
            ∈ c0.messages)
        ∨ ({ content := "resp", type := "assistant", timestamp := "T2" } : Message).type = "user"
        ∨ ({ content := "resp", type := "assistant", timestamp := "T2" } : Message).type
            = "assistant") :=
  ⟨by decide, by decide,
   claim_C3.2 { conversations := [newConv 5], currentConversationId := some "5",
                isProcessing := false } "hi" "T1" "T2" (.ok "resp")
     (pushMessage (pushMessage (newConv 5) "hi" "user" "T1") "resp" "assistant" "T2")
     { content := "resp", type := "assistant", timestamp := "T2" }
     (by decide) (by decide)⟩

/-! ### Claim C1 -/

/-- Claim C1 counterexample: two `createNewConversation` calls observing
the same `Date.now()` value (possible within one millisecond) produce two
conversations with the same id, so the ids of the resulting list are not
unique. -/
theorem claim_C1_cex :
    ¬ ((createNewConversation (createNewConversation initialState 0) 0).conversations.map
        Conversation.id).Nodup := by decide

/-- Claim C1 (corrected): every `createNewConversation` call prepends the
fresh conversation at the front of the list (most-recent-first), and the
resulting ids are unique provided the id strings generated at the create
calls are pairwise distinct and distinct from the ids already in a store
with unique ids — guaranteed when `Date.now()` is strictly increasing
across the calls, but not when two calls share a millisecond. -/
theorem claim_C1 (ts : List Nat) (st : AppState)
    (hold : (st.conversations.map Conversation.id).Nodup)
    (hts : (ts.map jsNumToString).Nodup)
    (hdisj : ∀ t ∈ ts, jsNumToString t ∉ st.conversations.map Conversation.id) :
    (ts.foldl createNewConversation st).conversations
        = (ts.map newConv).reverse ++ st.conversations
    ∧ ((ts.foldl createNewConversation st).conversations.map Conversation.id).Nodup := by
  induction ts generalizing st with
  | nil => exact ⟨by simp, hold⟩
  | cons t ts ih =>
    rw [List.map_cons] at hts
    obtain ⟨hnotmem, htail⟩ := List.nodup_cons.mp hts
    have hstep : (createNewConversation st t).conversations
        = newConv t :: st.conversations := rfl
    have hold2 : ((createNewConversation st t).conversations.map Conversation.id).Nodup := by
      rw [hstep, List.map_cons]
      exact List.nodup_cons.mpr ⟨hdisj t (by simp), hold⟩
    have hdisj2 : ∀ u ∈ ts,
        jsNumToString u ∉ (createNewConversation st t).conversations.map Conversation.id := by
      intro u hu
      rw [hstep, List.map_cons, List.mem_cons]
      rintro (h1 | h1)
      · have hmem : jsNumToString u ∈ ts.map jsNumToString :=
          List.mem_map_of_mem jsNumToString hu
        have h2 : jsNumToString u = jsNumToString t := h1
        rw [h2] at hmem
        exact hnotmem hmem
      · exact hdisj u (by simp [hu]) h1
    obtain ⟨ha, hb⟩ := ih (createNewConversation st t) hold2 htail hdisj2
    refine ⟨?_, hb⟩
    rw [List.foldl_cons, ha, hstep]
    simp

/-- Claim C1 witness: two creates at distinct clock values starting from
the empty store. -/
theorem claim_C1_witness :
    (initialState.conversations.map Conversation.id).Nodup
    ∧ (([0, 1].map jsNumToString).Nodup)
    ∧ (∀ t ∈ [0, 1], jsNumToString t ∉ initialState.conversations.map Conversation.id)
    ∧ ([0, 1].foldl createNewConversation initialState).conversations
        = ([0, 1].map newConv).reverse ++ initialState.conversations
    ∧ (([0, 1].foldl createNewConversation initialState).conversations.map
        Conversation.id).Nodup :=
  ⟨by decide, by decide, by decide,
   (claim_C1 [0, 1] initialState (by decide) (by decide) (by decide)).1,
   (claim_C1 [0, 1] initialState (by decide) (by decide) (by decide)).2⟩

/-! ### Claim C8 -/

/-- Claim C8 counterexample: deleting the sole (active) conversation
triggers creation of a fresh conversation; if the clock at deletion
renders to the deleted id (create and delete within the same
millisecond), `findById` on the deleted id finds the fresh conversation
instead of returning not-found. -/
theorem claim_C8_cex :
    findById (deleteConversation
        { conversations := [newConv 0], currentConversationId := some "0",
          isProcessing := false } "0" 0).conversations "0" = some (newConv 0) := by decide

/-- Claim C8 (corrected): after `deleteConversation id`, `findById id`
returns not-found provided some conversation remains or the id of the
freshly created replacement differs from the deleted id (the fresh id is
the deletion-time clock rendering, which can collide with the deleted
id); and whenever the deleted conversation was active, exactly one
conversation is active afterwards: the front of the remaining list, or
the freshly created conversation when the store became empty. -/
theorem claim_C8 (st : AppState) (conversationId : String) (t : Nat) :
    ((st.conversations.filter (fun c => c.id ≠ conversationId) ≠ []
        ∨ jsNumToString t ≠ conversationId) →
      findById (deleteConversation st conversationId t).conversations conversationId = none)
    ∧ (st.currentConversationId = some conversationId →
      ∃ c, (deleteConversation st conversationId t).currentConversationId = some c.id
        ∧ findById (deleteConversation st conversationId t).conversations c.id = some c
        ∧ (st.conversations.filter (fun c2 => c2.id ≠ conversationId) = [] → c = newConv t)
        ∧ ∀ c0 rest,
            st.conversations.filter (fun c2 => c2.id ≠ conversationId) = c0 :: rest
              → c = c0) := by
  have hrem : findById (st.conversations.filter (fun c => c.id ≠ conversationId))
      conversationId = none := by
    rw [findById, List.find?_eq_none]
    intro x hx
    have hx2 := (List.mem_filter.mp hx).2
    simpa using hx2
  by_cases hcur : st.currentConversationId = some conversationId
  · cases hrm : st.conversations.filter (fun c => c.id ≠ conversationId) with
    | nil =>
        have hdel : deleteConversation st conversationId t
            = createNewConversation { st with conversations := [] } t := by
          simp only [deleteConversation, if_pos hcur, hrm]
        have hconvs : (createNewConversation { st with conversations := [] } t).conversations
            = [newConv t] := rfl
        constructor
        · rintro (hne | hne)
          · exact absurd rfl hne
          · rw [hdel, hconvs, findById]
            rw [List.find?_cons_of_neg _ (by simpa using hne)]
            rfl
        · intro _
          refine ⟨newConv t, by rw [hdel]; rfl, ?_, fun _ => rfl, ?_⟩
          · rw [hdel, hconvs, findById, List.find?_cons_of_pos _ (by simp)]
          · intro c0 rest heq
            exact absurd heq (by simp)
    | cons c0 rest =>
        have hdel : deleteConversation st conversationId t
            = loadConversation { st with
                conversations := st.conversations.filter
                  (fun c => c.id ≠ conversationId) } c0.id := by
          simp only [deleteConversation, if_pos hcur, hrm]
        have hconvs : (loadConversation { st with
            conversations := st.conversations.filter
              (fun c => c.id ≠ conversationId) } c0.id).conversations
            = st.conversations.filter (fun c => c.id ≠ conversationId) := rfl
        constructor
        · intro _
          rw [hdel, hconvs]
          exact hrem
        · intro _
          refine ⟨c0, by rw [hdel]; rfl, ?_, ?_, ?_⟩
          · rw [hdel, hconvs, hrm, findById, List.find?_cons_of_pos _ (by simp)]
          · intro heq
            exact absurd heq (by simp)
          · intro c1 rest1 heq
            rw [List.cons.injEq] at heq
            exact heq.1
  · have hdel : deleteConversation st conversationId t
        = { st with
            conversations := st.conversations.filter (fun c => c.id ≠ conversationId) } := by
      simp only [deleteConversation]
      rw [if_neg hcur]
    constructor
    · intro _
      rw [hdel]
      exact hrem
    · intro hc
      exact absurd hc hcur

/-- Claim C8 witness: deleting the active conversation from a
two-conversation store leaves the remaining one active and findable
while the deleted id is not found. -/
theorem claim_C8_witness :
    (([newConv 0, newConv 1].filter (fun c => c.id ≠ "0") ≠ []
        ∨ jsNumToString 5 ≠ "0")
    ∧ findById (deleteConversation
        { conversations := [newConv 0, newConv 1], currentConversationId := some "0",
          isProcessing := false } "0" 5).conversations "0" = none)
    ∧ (({ conversations := [newConv 0, newConv 1], currentConversationId := some "0",
          isProcessing := false } : AppState).currentConversationId = some "0"
    ∧ ∃ c, (deleteConversation
          { conversations := [newConv 0, newConv 1], currentConversationId := some "0",
            isProcessing := false } "0" 5).currentConversationId = some c.id
        ∧ findById (deleteConversation
            { conversations := [newConv 0, newConv 1], currentConversationId := some "0",
              isProcessing := false } "0" 5).conversations c.id = some c
        ∧ ([newConv 0, newConv 1].filter (fun c2 => c2.id ≠ "0") = [] → c = newConv 5)
        ∧ ∀ c0 rest, [newConv 0, newConv 1].filter (fun c2 => c2.id ≠ "0") = c0 :: rest
            → c = c0) :=
  ⟨⟨by decide,
    (claim_C8 { conversations := [newConv 0, newConv 1], currentConversationId := some "0",
                isProcessing := false } "0" 5).1 (by decide)⟩,
   ⟨rfl,
    (claim_C8 { conversations := [newConv 0, newConv 1], currentConversationId := some "0",
                isProcessing := false } "0" 5).2 rfl⟩⟩

/-! ### Claim C4 -/

/-- Claim C4 (confirmed): the resolver returns the canned response of the
first keyword in table order occurring case-insensitively as a substring
of the input, and the default fallback when no keyword matches (the
`default` table entry itself maps to the fallback response, so the scan
and the fallback agree with the spec-side five-keyword resolver); in
particular any input containing `newton` after lowercasing returns the
Newton response. -/
theorem claim_C4 :
    (∀ message : String, getAIResponse message = specResolver message)
    ∧ (∀ message : String, includesStr (lowerStr message) "newton" = true →
        getAIResponse message = responseNewton) := by
  constructor
  · intro message
    simp only [getAIResponse, specResolver, responsesTable]
    cases h1 : includesStr (lowerStr message) "newton" <;>
      cases h2 : includesStr (lowerStr message) "quantum" <;>
        cases h3 : includesStr (lowerStr message) "thermodynamics" <;>
          cases h4 : includesStr (lowerStr message) "electromagnetism" <;>
            cases h5 : includesStr (lowerStr message) "relativity" <;>
              cases h6 : includesStr (lowerStr message) "default" <;>
                simp [List.find?, h1, h2, h3, h4, h5, h6]
  · intro message h
    simp [getAIResponse, responsesTable, List.find?, h]

/-- Claim C4 witness: a mixed-case input matching `newton` only as part
of the larger word `NEWTONIAN`. -/
theorem claim_C4_witness :
    includesStr (lowerStr "Explain NEWTONIAN mechanics") "newton" = true
    ∧ getAIResponse "Explain NEWTONIAN mechanics" = responseNewton :=
  ⟨rfl, claim_C4.2 "Explain NEWTONIAN mechanics" rfl⟩

/-! ### Round-trip lemmas for the JSON model -/

/-- Basic facts about digit characters. -/
theorem digitChar_facts (d : Nat) (hd : d < 10) :
    isDigitChar (digitChar d) = true ∧ isWsChar (digitChar d) = false
      ∧ charVal (digitChar d) = d := by
  interval_cases d <;> exact ⟨rfl, rfl, rfl⟩

/-- A digit character is none of the characters that select a parser
branch before the digit test. -/
theorem digitChar_ne (d : Nat) (hd : d < 10) :
    digitChar d ≠ '"' ∧ digitChar d ≠ '[' ∧ digitChar d ≠ lbrace ∧ digitChar d ≠ 't'
      ∧ digitChar d ≠ 'f' ∧ digitChar d ≠ 'n' ∧ digitChar d ≠ '-' ∧ digitChar d ≠ ']'
      ∧ digitChar d ≠ rbrace := by
  interval_cases d <;> exact (by decide)

/-- Skipping whitespace is the identity on input with a non-whitespace
head. -/
theorem skipWs_cons_not_ws (c : Char) (s : List Char) (h : isWsChar c = false) :
    skipWs (c :: s) = c :: s := by
  simp [skipWs, h]

/-- The fueled digit expansion agrees with `Nat.digits` whenever the fuel
suffices. -/
theorem natCharsAux_eq (f : Nat) : ∀ n, n ≤ f →
    natCharsAux f n = (Nat.digits 10 n).map digitChar := by
  induction f with
  | zero =>
    intro n hn
    have h0 : n = 0 := by omega
    subst h0
    simp [natCharsAux]
  | succ f ih =>
    intro n hn
    cases n with
    | zero => simp [natCharsAux]
    | succ m =>
      have hdiv : (m + 1) / 10 ≤ f := by
        have := Nat.div_lt_self (Nat.succ_pos m) (by norm_num : 1 < 10)
        omega
      rw [natCharsAux, ih ((m + 1) / 10) hdiv,
        Nat.digits_def' (by norm_num : (1 : ℕ) < 10) (Nat.succ_pos m), List.map_cons]

/-- Every character of `natChars` is a digit character. -/
theorem natChars_rep (n : Nat) : ∀ c ∈ natChars n, ∃ d, d < 10 ∧ c = digitChar d := by
  intro c hc
  unfold natChars at hc
  by_cases h0 : n = 0
  · rw [if_pos h0] at hc
    simp at hc
    exact ⟨0, by norm_num, by rw [hc]; decide⟩
  · rw [if_neg h0, natCharsAux_eq (n + 1) n (by omega), List.mem_reverse] at hc
    obtain ⟨d, hd, rfl⟩ := List.mem_map.mp hc
    exact ⟨d, Nat.digits_lt_base (by norm_num) hd, rfl⟩

/-- The decimal rendering of a natural number is never empty. -/
theorem natChars_ne_nil (n : Nat) : natChars n ≠ [] := by
  unfold natChars
  by_cases h0 : n = 0
  · simp [h0]
  · rw [if_neg h0, natCharsAux_eq (n + 1) n (by omega)]
    simp [Nat.digits_ne_nil_iff_ne_zero, h0]

/-- Greedy digit accumulation over a digit run followed by a non-digit
boundary. -/
theorem parseDigitsAux_append (ds : List Char) (rest : List Char) (acc : Nat)
    (hds : ∀ c ∈ ds, isDigitChar c = true) (hrest : noDigitHead rest = true) :
    parseDigitsAux (ds ++ rest) acc
      = (ds.foldl (fun a c => a * 10 + charVal c) acc, rest) := by
  induction ds generalizing acc with
  | nil =>
    simp only [List.nil_append, List.foldl_nil]
    cases rest with
    | nil => rfl
    | cons c r =>
      have hc : isDigitChar c = false := by
        simpa [noDigitHead] using hrest
      simp [parseDigitsAux, hc]
  | cons c ds ih =>
    have hc : isDigitChar c = true := hds c (by simp)
    simp only [List.cons_append, parseDigitsAux, hc, if_pos, List.foldl_cons]
    exact ih (acc * 10 + charVal c) (fun d hd => hds d (by simp [hd]))

/-- Value of the digit fold over a most-significant-first digit string. -/
theorem foldl_digitChars (L : List Nat) (acc : Nat) (hL : ∀ d ∈ L, d < 10) :
    ((L.map digitChar).reverse).foldl (fun a c => a * 10 + charVal c) acc
      = acc * 10 ^ L.length + Nat.ofDigits 10 L := by
  rw [List.foldl_reverse]
  induction L with
  | nil => simp [Nat.ofDigits_nil]
  | cons d L ih =>
    have hd : d < 10 := hL d (by simp)
    simp only [List.map_cons, List.foldr_cons, ih (fun e he => hL e (by simp [he]))]
    rw [(digitChar_facts d hd).2.2, Nat.ofDigits_cons, List.length_cons, pow_succ]
    ring

/-- Parsing the digits of `natChars n` recovers `n` and stops at the
boundary. -/
theorem parseDigits_natChars (n : Nat) (rest : List Char)
    (hrest : noDigitHead rest = true) :
    parseDigitsAux (natChars n ++ rest) 0 = (n, rest) := by
  have hds : ∀ c ∈ natChars n, isDigitChar c = true := by
    intro c hc
    obtain ⟨d, hd, rfl⟩ := natChars_rep n c hc
    exact (digitChar_facts d hd).1
  rw [parseDigitsAux_append _ _ _ hds hrest]
  congr 1
  unfold natChars
  by_cases h0 : n = 0
  · rw [if_pos h0, h0]
    rfl
  · rw [if_neg h0, natCharsAux_eq (n + 1) n (by omega),
      foldl_digitChars _ 0 (fun d hd => Nat.digits_lt_base (by norm_num) hd)]
    simp [Nat.ofDigits_digits]

/-- Decoding a string body inverts the escaping applied by the
stringifier. -/
theorem parseStringRest_quote (s : List Char) (rest : List Char) :
    parseStringRest (s.flatMap quoteChar ++ '"' :: rest) = some (s, rest) := by
  induction s with
  | nil =>
    rw [List.flatMap_nil, List.nil_append, parseStringRest.eq_def]
    simp
  | cons c cs ih =>
    rw [List.flatMap_cons, List.append_assoc]
    revert ih
    generalize cs.flatMap quoteChar ++ '"' :: rest = T
    intro ih
    by_cases h1 : c = '"'
    · subst h1
      rw [show quoteChar '"' = ['\\', '"'] from rfl, List.cons_append, List.cons_append,
        List.nil_append, parseStringRest.eq_def]
      simp [unescapeChar, ih]
    · by_cases h2 : c = '\\'
      · subst h2
        rw [show quoteChar '\\' = ['\\', '\\'] from rfl, List.cons_append, List.cons_append,
          List.nil_append, parseStringRest.eq_def]
        simp [unescapeChar, ih]
      · by_cases h3 : c = '\n'
        · subst h3
          rw [show quoteChar '\n' = ['\\', 'n'] from rfl, List.cons_append, List.cons_append,
            List.nil_append, parseStringRest.eq_def]
          simp [unescapeChar, ih]
        · by_cases h4 : c = '\t'
          · subst h4
            rw [show quoteChar '\t' = ['\\', 't'] from rfl, List.cons_append, List.cons_append,
              List.nil_append, parseStringRest.eq_def]
            simp [unescapeChar, ih]
          · by_cases h5 : c = '\r'
            · subst h5
              rw [show quoteChar '\r' = ['\\', 'r'] from rfl, List.cons_append, List.cons_append,
                List.nil_append, parseStringRest.eq_def]
              simp [unescapeChar, ih]
            · rw [show quoteChar c = [c] by simp [quoteChar, h1, h2, h3, h4, h5],
                List.cons_append, List.nil_append, parseStringRest.eq_def]
              simp [h1, h2, ih]

/-- The rendering of a value starts with a non-whitespace character that
is not a closing bracket or brace. -/
theorem stringifyJson_head (j : Json) :
    ∃ c t, stringifyJson j = c :: t ∧ isWsChar c = false ∧ c ≠ ']' ∧ c ≠ rbrace := by
  cases j with
  | null =>
    exact ⟨'n', ['u', 'l', 'l'], by simp [stringifyJson], by decide, by decide, by decide⟩
  | bool b =>
    cases b with
    | true =>
      exact ⟨'t', ['r', 'u', 'e'], by simp [stringifyJson], by decide, by decide, by decide⟩
    | false =>
      exact ⟨'f', ['a', 'l', 's', 'e'], by simp [stringifyJson], by decide, by decide, by decide⟩
  | num n =>
    by_cases hn : n < 0
    · exact ⟨'-', natChars n.natAbs, by simp [stringifyJson, stringifyInt, hn],
        by decide, by decide, by decide⟩
    · cases hnc : natChars n.natAbs with
      | nil => exact absurd hnc (natChars_ne_nil n.natAbs)
      | cons d ds =>
        obtain ⟨e, he, rfl⟩ := natChars_rep n.natAbs d (by rw [hnc]; simp)
        refine ⟨digitChar e, ds, ?_, (digitChar_facts e he).2.1,
          (digitChar_ne e he).2.2.2.2.2.2.2.1, (digitChar_ne e he).2.2.2.2.2.2.2.2⟩
        simp [stringifyJson, stringifyInt, hn, hnc]
  | str s =>
    exact ⟨'"', s.data.flatMap quoteChar ++ ['"'], by simp [stringifyJson],
      by decide, by decide, by decide⟩
  | arr xs =>
    exact ⟨'[', stringifyElems xs ++ [']'], by simp [stringifyJson],
      by decide, by decide, by decide⟩
  | obj kvs =>
    exact ⟨lbrace, stringifyMembers kvs ++ [rbrace], by simp [stringifyJson],
      by decide, by decide, by decide⟩

/-- Values render to at least one constructor worth of fuel. -/
theorem nodesV_pos (j : Json) : 1 ≤ nodesV j := by
  cases j <;> simp only [nodesV] <;> omega

/-- A nonempty element list has positive constructor count. -/
theorem nodesL_pos (v : Json) (vs : List Json) : 1 ≤ nodesL (v :: vs) := by
  have := nodesV_pos v
  simp only [nodesL]
  omega

/-- Parsing the rendering of `null`. -/
theorem parseValue_null (f : Nat) (rest : List Char) :
    parseValue (f + 1) (stringifyJson .null ++ rest) = some (.null, rest) := by
  simp [parseValue, stringifyJson, skipWs, isWsChar, lbrace, rbrace]

/-- Parsing the rendering of a boolean. -/
theorem parseValue_bool (f : Nat) (b : Bool) (rest : List Char) :
    parseValue (f + 1) (stringifyJson (.bool b) ++ rest) = some (.bool b, rest) := by
  cases b <;> simp [parseValue, stringifyJson, skipWs, isWsChar, lbrace, rbrace]

/-- Parsing the rendering of a string literal. -/
theorem parseValue_str (f : Nat) (s : String) (rest : List Char) :
    parseValue (f + 1) (stringifyJson (.str s) ++ rest) = some (.str s, rest) := by
  have hq := parseStringRest_quote s.data rest
  simp [parseValue, stringifyJson, skipWs, isWsChar, lbrace, rbrace, hq]

/-- Parsing the rendering of an integer. -/
theorem parseValue_num (f : Nat) (n : Int) (rest : List Char)
    (hrest : noDigitHead rest = true) :
    parseValue (f + 1) (stringifyJson (.num n) ++ rest) = some (.num n, rest) := by
  have hstr : stringifyJson (.num n) = stringifyInt n := by simp [stringifyJson]
  by_cases hn : n < 0
  · have hsi : stringifyInt n = '-' :: natChars n.natAbs := by simp [stringifyInt, hn]
    cases hnc : natChars n.natAbs with
    | nil => exact absurd hnc (natChars_ne_nil n.natAbs)
    | cons d ds =>
      obtain ⟨e, he, rfl⟩ := natChars_rep n.natAbs d (by rw [hnc]; simp)
      have hp := parseDigits_natChars n.natAbs rest hrest
      rw [hnc] at hp
      simp only [List.cons_append] at hp
      have hnn : -|n| = n := by rw [abs_of_neg hn, neg_neg]
      simp only [hstr, hsi, hnc, List.cons_append, parseValue]
      rw [skipWs_cons_not_ws _ _ (by decide)]
      simp [lbrace, rbrace, (digitChar_facts e he).1, hp, hnn]
  · have hsi : stringifyInt n = natChars n.natAbs := by simp [stringifyInt, hn]
    cases hnc : natChars n.natAbs with
    | nil => exact absurd hnc (natChars_ne_nil n.natAbs)
    | cons d ds =>
      obtain ⟨e, he, rfl⟩ := natChars_rep n.natAbs d (by rw [hnc]; simp)
      have hp := parseDigits_natChars n.natAbs rest hrest
      rw [hnc] at hp
      simp only [List.cons_append] at hp
      have hnn : |n| = n := abs_of_nonneg (by omega)
      obtain ⟨hne1, hne2, hne3, hne4, hne5, hne6, hne7, -⟩ := digitChar_ne e he
      simp only [hstr, hsi, hnc, List.cons_append, parseValue]
      rw [skipWs_cons_not_ws _ _ (digitChar_facts e he).2.1]
      simp [hne1, hne2, hne3, hne4, hne5, hne6, hne7,
        (digitChar_facts e he).1, hp, hnn]

/-- Parsing the rendering of the empty array. -/
theorem parseValue_arr_nil (f : Nat) (rest : List Char) :
    parseValue (f + 1) (stringifyJson (.arr []) ++ rest) = some (.arr [], rest) := by
  simp [parseValue, stringifyJson, stringifyElems, skipWs, isWsChar, lbrace, rbrace]

/-- Parsing the rendering of the empty object. -/
theorem parseValue_obj_nil (f : Nat) (rest : List Char) :
    parseValue (f + 1) (stringifyJson (.obj []) ++ rest) = some (.obj [], rest) := by
  simp [parseValue, stringifyJson, stringifyMembers, skipWs, isWsChar, lbrace, rbrace]

/-- An element list rendering starts with the rendering of its head. -/
theorem stringifyElems_cons_eq (x : Json) (xs : List Json) :
    ∃ rel, stringifyElems (x :: xs) = stringifyJson x ++ rel := by
  cases xs with
  | nil => exact ⟨[], by simp [stringifyElems]⟩
  | cons y ys => exact ⟨',' :: stringifyElems (y :: ys), by simp [stringifyElems]⟩

theorem parseElems_single (f : Nat) (v : Json) (rest : List Char)
    (hV : parseValue f (stringifyJson v ++ ']' :: rest) = some (v, ']' :: rest)) :
    parseElems (f + 1) (stringifyElems [v] ++ ']' :: rest) = some ([v], rest) := by
  have h1 : stringifyElems [v] = stringifyJson v := by simp [stringifyElems]
  rw [h1]
  simp only [parseElems]
  rw [hV]
  simp [skipWs, isWsChar]

theorem parseElems_cons (f : Nat) (v w : Json) (ws : List Json) (rest : List Char)
    (hV : parseValue f (stringifyJson v ++ ',' :: (stringifyElems (w :: ws) ++ ']' :: rest))
      = some (v, ',' :: (stringifyElems (w :: ws) ++ ']' :: rest)))
    (hE : parseElems f (stringifyElems (w :: ws) ++ ']' :: rest) = some (w :: ws, rest)) :
    parseElems (f + 1) (stringifyElems (v :: w :: ws) ++ ']' :: rest)
      = some (v :: w :: ws, rest) := by
  have h1 : stringifyElems (v :: w :: ws) ++ ']' :: rest
      = stringifyJson v ++ ',' :: (stringifyElems (w :: ws) ++ ']' :: rest) := by
    simp [stringifyElems]
  rw [h1]
  simp only [parseElems]
  rw [hV]
  simp [skipWs, isWsChar, hE]

theorem parseValue_arr_cons (f : Nat) (x : Json) (xs : List Json) (rest : List Char)
    (hE : parseElems f (stringifyElems (x :: xs) ++ ']' :: rest) = some (x :: xs, rest)) :
    parseValue (f + 1) (stringifyJson (.arr (x :: xs)) ++ rest)
      = some (.arr (x :: xs), rest) := by
  have hs : stringifyJson (.arr (x :: xs)) ++ rest
      = '[' :: (stringifyElems (x :: xs) ++ ']' :: rest) := by
    simp [stringifyJson]
  obtain ⟨rel, hrel⟩ := stringifyElems_cons_eq x xs
  obtain ⟨c0, t0, hct, hws0, hne0, -⟩ := stringifyJson_head x
  have hin : stringifyElems (x :: xs) ++ ']' :: rest = c0 :: (t0 ++ (rel ++ ']' :: rest)) := by
    rw [hrel, hct]
    simp
  rw [hs]
  simp only [parseValue]
  rw [hin, skipWs_cons_not_ws _ _ (by decide : isWsChar '[' = false)]
  simp [skipWs_cons_not_ws _ _ hws0, hne0]
  rw [← hin, hE]

theorem stringifyMembers_cons_head (kv : String × Json) (kvs : List (String × Json)) :
    ∃ t, stringifyMembers (kv :: kvs) = '"' :: t := by
  obtain ⟨k, v⟩ := kv
  cases kvs with
  | nil =>
    exact ⟨k.data.flatMap quoteChar ++ '"' :: ':' :: stringifyJson v,
      by simp [stringifyMembers]⟩
  | cons kv2 kvs2 =>
    exact ⟨(k.data.flatMap quoteChar ++ '"' :: ':' :: stringifyJson v)
        ++ ',' :: stringifyMembers (kv2 :: kvs2),
      by simp [stringifyMembers]⟩

theorem parseValue_obj_cons (f : Nat) (kv : String × Json) (kvs : List (String × Json))
    (rest : List Char)
    (hM : parseMembers f (stringifyMembers (kv :: kvs) ++ rbrace :: rest)
      = some (kv :: kvs, rest)) :
    parseValue (f + 1) (stringifyJson (.obj (kv :: kvs)) ++ rest)
      = some (.obj (kv :: kvs), rest) := by
  have hs : stringifyJson (.obj (kv :: kvs)) ++ rest
      = lbrace :: (stringifyMembers (kv :: kvs) ++ rbrace :: rest) := by
    simp [stringifyJson]
  obtain ⟨t1, ht1⟩ := stringifyMembers_cons_head kv kvs
  have hin : stringifyMembers (kv :: kvs) ++ rbrace :: rest
      = '"' :: (t1 ++ rbrace :: rest) := by
    rw [ht1]
    simp
  rw [hs]
  simp only [parseValue]
  rw [hin, skipWs_cons_not_ws _ _ (by decide : isWsChar lbrace = false)]
  simp [skipWs_cons_not_ws _ _ (by decide : isWsChar '"' = false),
    (by decide : ¬ (lbrace = '"')), (by decide : ¬ (lbrace = '[')),
    (by decide : ¬ ('"' = rbrace))]
  rw [← hin, hM]

theorem parseMembers_single (f : Nat) (k : String) (v : Json) (rest : List Char)
    (hV : parseValue f (stringifyJson v ++ rbrace :: rest) = some (v, rbrace :: rest)) :
    parseMembers (f + 1) (stringifyMembers [(k, v)] ++ rbrace :: rest)
      = some ([(k, v)], rest) := by
  have h1 : stringifyMembers [(k, v)] ++ rbrace :: rest
      = '"' :: (k.data.flatMap quoteChar
          ++ '"' :: ':' :: (stringifyJson v ++ rbrace :: rest)) := by
    simp [stringifyMembers]
  have hq := parseStringRest_quote k.data (':' :: (stringifyJson v ++ rbrace :: rest))
  rw [h1]
  simp only [parseMembers]
  rw [skipWs_cons_not_ws _ _ (by decide : isWsChar '"' = false)]
  simp [hq, skipWs_cons_not_ws _ _ (by decide : isWsChar ':' = false), hV,
    skipWs_cons_not_ws _ _ (by decide : isWsChar rbrace = false),
    (by decide : ¬ (rbrace = ','))]

theorem parseMembers_cons (f : Nat) (k : String) (v : Json) (kv2 : String × Json)
    (kvs : List (String × Json)) (rest : List Char)
    (hV : parseValue f (stringifyJson v
        ++ ',' :: (stringifyMembers (kv2 :: kvs) ++ rbrace :: rest))
      = some (v, ',' :: (stringifyMembers (kv2 :: kvs) ++ rbrace :: rest)))
    (hM : parseMembers f (stringifyMembers (kv2 :: kvs) ++ rbrace :: rest)
      = some (kv2 :: kvs, rest)) :
    parseMembers (f + 1) (stringifyMembers ((k, v) :: kv2 :: kvs) ++ rbrace :: rest)
      = some ((k, v) :: kv2 :: kvs, rest) := by
  have h1 : stringifyMembers ((k, v) :: kv2 :: kvs) ++ rbrace :: rest
      = '"' :: (k.data.flatMap quoteChar
          ++ '"' :: ':' :: (stringifyJson v
            ++ ',' :: (stringifyMembers (kv2 :: kvs) ++ rbrace :: rest))) := by
    simp [stringifyMembers]
  have hq := parseStringRest_quote k.data
    (':' :: (stringifyJson v ++ ',' :: (stringifyMembers (kv2 :: kvs) ++ rbrace :: rest)))
  rw [h1]
  simp only [parseMembers]
  rw [skipWs_cons_not_ws _ _ (by decide : isWsChar '"' = false)]
  simp [hq, skipWs_cons_not_ws _ _ (by decide : isWsChar ':' = false), hV,
    skipWs_cons_not_ws _ _ (by decide : isWsChar ',' = false), hM]

theorem parse_stringify_aux (f : Nat) :
    (∀ j rest, nodesV j < f → noDigitHead rest = true →
      parseValue f (stringifyJson j ++ rest) = some (j, rest))
    ∧ (∀ xs rest, xs ≠ [] → nodesL xs + 1 < f →
      parseElems f (stringifyElems xs ++ ']' :: rest) = some (xs, rest))
    ∧ (∀ kvs rest, kvs ≠ [] → nodesM kvs + 1 < f →
      parseMembers f (stringifyMembers kvs ++ rbrace :: rest) = some (kvs, rest)) := by
  induction f with
  | zero =>
    exact ⟨fun j rest hf _ => absurd hf (by omega),
      fun xs rest _ hf => absurd hf (by omega),
      fun kvs rest _ hf => absurd hf (by omega)⟩
  | succ f ih =>
    obtain ⟨ihV, ihE, ihM⟩ := ih
    refine ⟨?_, ?_, ?_⟩
    · intro j rest hf hrest
      cases j with
      | null => exact parseValue_null f rest
      | bool b => exact parseValue_bool f b rest
      | num n => exact parseValue_num f n rest hrest
      | str s => exact parseValue_str f s rest
      | arr xs =>
        cases xs with
        | nil => exact parseValue_arr_nil f rest
        | cons x xs2 =>
          refine parseValue_arr_cons f x xs2 rest (ihE (x :: xs2) rest (by simp) ?_)
          simp only [nodesV] at hf
          omega
      | obj kvs =>
        cases kvs with
        | nil => exact parseValue_obj_nil f rest
        | cons kv kvs2 =>
          refine parseValue_obj_cons f kv kvs2 rest (ihM (kv :: kvs2) rest (by simp) ?_)
          simp only [nodesV] at hf
          omega
    · intro xs rest hne hf
      cases xs with
      | nil => exact absurd rfl hne
      | cons v vs =>
        cases vs with
        | nil =>
          refine parseElems_single f v rest (ihV v (']' :: rest) ?_ (by rfl))
          simp only [nodesL] at hf
          omega
        | cons w ws =>
          have hwpos := nodesL_pos w ws
          have hvpos := nodesV_pos v
          simp only [nodesL] at hf hwpos
          refine parseElems_cons f v w ws rest
            (ihV v _ (by omega) (by rfl))
            (ihE (w :: ws) rest (by simp) (by simp only [nodesL]; omega))
    · intro kvs rest hne hf
      cases kvs with
      | nil => exact absurd rfl hne
      | cons kv kvs2 =>
        obtain ⟨k, v⟩ := kv
        cases kvs2 with
        | nil =>
          refine parseMembers_single f k v rest (ihV v (rbrace :: rest) ?_ (by rfl))
          simp only [nodesM] at hf
          omega
        | cons kv2 kvs3 =>
          have hkpos := nodesV_pos kv2.2
          have hvpos := nodesV_pos v
          simp only [nodesM] at hf
          refine parseMembers_cons f k v kv2 kvs3 rest
            (ihV v _ (by omega) (by rfl))
            (ihM (kv2 :: kvs3) rest (by simp) (by simp only [nodesM]; omega))





mutual

theorem nodesV_le_len : ∀ j : Json, nodesV j ≤ (stringifyJson j).length
  | .null => by simp [nodesV, stringifyJson]
  | .bool b => by cases b <;> simp [nodesV, stringifyJson]
  | .num n => by
      have hpos : 1 ≤ (natChars n.natAbs).length :=
        List.length_pos.mpr (natChars_ne_nil n.natAbs)
      by_cases hn : n < 0
      · simp only [nodesV, stringifyJson, stringifyInt, if_pos hn, List.length_cons]
        omega
      · simp only [nodesV, stringifyJson, stringifyInt, if_neg hn]
        omega
  | .str s => by
      simp only [nodesV, stringifyJson, List.length_cons]
      omega
  | .arr xs => by
      have h := nodesL_le_len xs
      simp only [nodesV, stringifyJson, List.length_cons, List.length_append,
        List.length_nil]
      omega
  | .obj kvs => by
      have h := nodesM_le_len kvs
      simp only [nodesV, stringifyJson, List.length_cons, List.length_append,
        List.length_nil]
      omega

theorem nodesL_le_len : ∀ xs : List Json, nodesL xs ≤ (stringifyElems xs).length
  | [] => by simp [nodesL, stringifyElems]
  | [x] => by
      have h := nodesV_le_len x
      simp only [nodesL, stringifyElems]
      omega
  | x :: y :: rest => by
      have h1 := nodesV_le_len x
      have h2 := nodesL_le_len (y :: rest)
      simp only [nodesL] at h2
      simp only [nodesL, stringifyElems, List.length_append, List.length_cons]
      omega

theorem nodesM_le_len : ∀ kvs : List (String × Json), nodesM kvs ≤ (stringifyMembers kvs).length
  | [] => by simp [nodesM, stringifyMembers]
  | [(k, v)] => by
      have h := nodesV_le_len v
      simp only [nodesM, stringifyMembers, List.length_cons, List.length_append]
      omega
  | (k, v) :: kv2 :: rest => by
      have h1 := nodesV_le_len v
      have h2 := nodesM_le_len (kv2 :: rest)
      simp only [nodesM] at h2
      simp only [nodesM, stringifyMembers, List.length_append, List.length_cons]
      omega

end

theorem stringifyJson_ne_nil (j : Json) : stringifyJson j ≠ [] := by
  obtain ⟨c, t, hct, -, -, -⟩ := stringifyJson_head j
  simp [hct]

theorem parse_stringify (j : Json) : jsonParse (jsonStringify j) = some j := by
  have hb : nodesV j < (stringifyJson j).length + 1 := Nat.lt_succ_of_le (nodesV_le_len j)
  have haux := (parse_stringify_aux ((stringifyJson j).length + 1)).1 j [] hb (by rfl)
  rw [List.append_nil] at haux
  simp only [jsonParse, jsonStringify]
  rw [show (String.mk (stringifyJson j)).length = (stringifyJson j).length from rfl, haux]
  simp [skipWs]

/-! ### Claim C9 -/

/-- Claim C9 (confirmed): the load/save round trip is idempotent: when a
persisted value loads successfully, saving the freshly loaded value and
loading again yields the same value as the first load. -/
theorem claim_C9 (s : String) (j : Json)
    (h : loadConversations (some s) = .ok j) :
    loadConversations (some (saveConversationsRaw j)) = .ok j := by
  have hnil : saveConversationsRaw j ≠ "" := by
    obtain ⟨c, t, hct, -, -, -⟩ := stringifyJson_head j
    unfold saveConversationsRaw jsonStringify
    rw [hct]
    intro hcontra
    have hdata := congrArg String.data hcontra
    simp at hdata
  have hparse : jsonParse (saveConversationsRaw j) = some j := parse_stringify j
  simp only [loadConversations]
  rw [if_neg hnil, hparse]

/-- Claim C9 witness: the empty persisted list. -/
theorem claim_C9_witness :
    loadConversations (some "[]") = .ok (Json.arr [])
    ∧ loadConversations (some (saveConversationsRaw (Json.arr []))) = .ok (Json.arr []) :=
  ⟨rfl, claim_C9 "[]" (Json.arr []) rfl⟩

/-! ### Claim C2 -/

/-- Claim C2 counterexample: `JSON.parse` cannot parse `x`, and on that
persisted value `loadConversations` raises the parse error to the caller
instead of yielding the empty list — there is no try/catch around
`JSON.parse(saved)`. -/
theorem claim_C2_cex :
    jsonParse "x" = none
    ∧ loadConversations (some "x") = .error "SyntaxError: Unexpected token in JSON" :=
  ⟨rfl, rfl⟩

/-- Claim C2 (corrected): on absent or empty (falsy) persisted data, load
yields the empty list; on parseable data it yields the parsed value; but
on malformed non-empty data the `JSON.parse` exception propagates to the
caller — load does not fail soft. -/
theorem claim_C2 :
    loadConversations none = .ok (.arr [])
    ∧ loadConversations (some "") = .ok (.arr [])
    ∧ (∀ s j, jsonParse s = some j → loadConversations (some s) = .ok j)
    ∧ (∀ s, s ≠ "" → jsonParse s = none →
        loadConversations (some s) = .error "SyntaxError: Unexpected token in JSON") := by
  refine ⟨rfl, rfl, ?_, ?_⟩
  · intro s j h
    by_cases hs : s = ""
    · subst hs
      have h0 : jsonParse "" = none := rfl
      rw [h0] at h
      exact Option.noConfusion h
    · simp only [loadConversations]
      rw [if_neg hs, h]
  · intro s hs h
    simp only [loadConversations]
    rw [if_neg hs, h]

/-- Claim C2 witness: a parseable persisted value and a malformed one. -/
theorem claim_C2_witness :
    (jsonParse "[]" = some (Json.arr [])
      ∧ loadConversations (some "[]") = .ok (Json.arr []))
    ∧ (("x" : String) ≠ ""
      ∧ jsonParse "x" = none
      ∧ loadConversations (some "x") = .error "SyntaxError: Unexpected token in JSON") :=
  ⟨⟨rfl, claim_C2.2.2.1 "[]" (Json.arr []) rfl⟩,
   ⟨by decide, rfl, claim_C2.2.2.2 "x" (by decide) rfl⟩⟩

end PhyChat
